import Mathlib

/-!
Verification of the StateQL parser and relational schema compiler.

The Go sources are shallowly embedded: Go strings are Lean `String`s
(`structure` over `List Char`; Go byte indices coincide with character
indices on the ASCII fragment exercised here), Go's library functions
(`strings.TrimSpace`, `strings.Split`, `strings.Fields`, ...) are
re-implemented structurally below, Go maps become association lists with
first-match lookup and prepend-overwrite insertion, and code that can
panic (the out-of-bounds slice in `parseField`) returns `Option`.
-/

namespace StateQLVerif

set_option maxRecDepth 100000

/-- Go `unicode.IsSpace`: the Unicode White_Space property. -/
def goIsSpace (c : Char) : Bool :=
  c == ' ' || c == '\t' || c == '\n' ||
  (0xB ≤ c.toNat && c.toNat ≤ 0xD) || c.toNat == 0x85 || c.toNat == 0xA0 ||
  c.toNat == 0x1680 || (0x2000 ≤ c.toNat && c.toNat ≤ 0x200A) ||
  c.toNat == 0x2028 || c.toNat == 0x2029 || c.toNat == 0x202F ||
  c.toNat == 0x205F || c.toNat == 0x3000

/-- Go `strings.TrimSpace`. -/
def goTrimSpace (s : String) : String :=
  ⟨((s.data.dropWhile goIsSpace).reverse.dropWhile goIsSpace).reverse⟩

/-- Go `strings.HasPrefix`. -/
def goHasPre (s p : String) : Bool := p.data.isPrefixOf s.data

/-- Go `strings.HasSuffix`. -/
def goHasSuf (s p : String) : Bool := p.data.isSuffixOf s.data

/-- Go `strings.TrimPrefix`. -/
def goTrimPre (s p : String) : String :=
  if goHasPre s p then ⟨s.data.drop p.data.length⟩ else s

/-- Go `strings.TrimSuffix`. -/
def goTrimSuf (s p : String) : String :=
  if goHasSuf s p then ⟨s.data.take (s.data.length - p.data.length)⟩ else s

/-- Go `strings.Trim` with a one-character cutset. -/
def goTrimChar (s : String) (c : Char) : String :=
  ⟨((s.data.dropWhile (· == c)).reverse.dropWhile (· == c)).reverse⟩

/-- Index (in characters) of the first occurrence of `sub` in `s`, if any. -/
def findSubAux (sub : List Char) : List Char → Nat → Option Nat
  | [], i => if sub.isEmpty then some i else none
  | c :: cs, i =>
    if sub.isPrefixOf (c :: cs) then some i else findSubAux sub cs (i + 1)

/-- Go `strings.Index` (`-1` when absent), character-based. -/
def goIdx (s sub : String) : Int :=
  match findSubAux sub.data s.data 0 with
  | some n => (n : Int)
  | none => -1

/-- Go `strings.Contains`. -/
def goContains (s sub : String) : Bool :=
  (findSubAux sub.data s.data 0).isSome

/-- Go string slicing `s[a:b]`; `none` models the runtime panic on
out-of-range bounds (in particular when `b = -1` from a failed Index). -/
def goSlice (s : String) (a b : Int) : Option String :=
  if 0 ≤ a ∧ a ≤ b ∧ b ≤ (s.data.length : Int) then
    some ⟨(s.data.take b.toNat).drop a.toNat⟩
  else none

/-- Go `s[:b]` for `0 ≤ b ≤ len s` (always in range where used). -/
def goTake (s : String) (b : Int) : String := ⟨s.data.take b.toNat⟩

/-- Helper for `goFields`: split on whitespace runs, dropping empties. -/
def fieldsAux : List Char → List Char → List (List Char)
  | [], acc => if acc.isEmpty then [] else [acc.reverse]
  | c :: cs, acc =>
    if goIsSpace c then
      if acc.isEmpty then fieldsAux cs [] else acc.reverse :: fieldsAux cs []
    else fieldsAux cs (c :: acc)

/-- Go `strings.Fields`. -/
def goFields (s : String) : List String := (fieldsAux s.data []).map (⟨·⟩)

/-- Helper for `goSplit`; the fuel is always at least `length + 1`, so the
fuel-exhausted branch is never reached for the nonempty separators used. -/
def splitAux (sep : List Char) : Nat → List Char → List Char → List (List Char)
  | 0, s, acc => [acc.reverse ++ s]
  | _ + 1, [], acc => [acc.reverse]
  | fuel + 1, c :: cs, acc =>
    if sep.isPrefixOf (c :: cs) then
      acc.reverse :: splitAux sep fuel ((c :: cs).drop sep.length) []
    else
      splitAux sep fuel cs (c :: acc)

/-- Go `strings.Split` (nonempty separator). -/
def goSplit (s sep : String) : List String :=
  (splitAux sep.data (s.data.length + 1) s.data []).map (⟨·⟩)

/-- Go `strings.ToLower`, ASCII fragment (all inputs here are ASCII). -/
def goToLower (s : String) : String :=
  ⟨s.data.map (fun c =>
    if 65 ≤ c.toNat && c.toNat ≤ 90 then Char.ofNat (c.toNat + 32) else c)⟩

/-- `parser.Field` (Go zero values as defaults; the `map`/slices become
association list / lists). -/
structure Field where
  Name : String := ""
  Type' : String := ""
  IsMany : Bool := false
  Through : String := ""
  IsAction : Bool := false
  ActionType : String := ""
  ActionArgs : List (String × String) := []
  RequiredParams : List String := []
  FunctionName : String := ""
  FunctionArgs : List String := []
deriving DecidableEq

/-- `parser.Entity`. -/
structure Entity where
  Name : String := ""
  Fields : List Field := []
deriving DecidableEq

/-- `parser.StateQL`. -/
structure StateQL where
  Entities : List Entity := []
deriving DecidableEq

/-- Go map assignment `m[k] = v` (lookup takes the first match, so
prepending overwrites). -/
def mapPut (m : List (String × String)) (k v : String) : List (String × String) :=
  (k, v) :: m

/-- Go map lookup `m[k]`. -/
def mapGet : List (String × String) → String → Option String
  | [], _ => none
  | (k2, v) :: rest, k => if k2 = k then some v else mapGet rest k

/-- Loop body of `parseActionArgs`: `i` is the index in the full token
list (the Go loop variable). -/
def paaLoop : Nat → List String → List (String × String) → List String →
    List (String × String) × List String
  | _, [], m, req => (m, req)
  | i, p :: rest, m, req =>
    let part := goTrimSpace p
    if goHasPre part ":" then
      paaLoop (i + 1) rest m (req ++ [goTrimPre part ":"])
    else if goContains part "=" then
      match goSplit part "=" with
      | [k, v] => paaLoop (i + 1) rest (mapPut m (goTrimSpace k) (goTrimSpace v)) req
      | _ => paaLoop (i + 1) rest m req
    else if i == 0 then paaLoop (i + 1) rest (mapPut m "arg1" part) req
    else if i == 1 then paaLoop (i + 1) rest (mapPut m "arg2" part) req
    else paaLoop (i + 1) rest m req

/-- `parser.parseActionArgs`. -/
def parseActionArgs (args : String) : List (String × String) × List String :=
  paaLoop 0 (goFields args) [] []

/-- The effect of one `parseActionArgs` loop iteration on the
`ActionArgs` map alone (the map component of `paaLoop` never depends on
the required-parameter list). -/
def paaStepM (i : Nat) (p : String) (m : List (String × String)) :
    List (String × String) :=
  let part := goTrimSpace p
  if goHasPre part ":" then m
  else if goContains part "=" then
    match goSplit part "=" with
    | [k, v] => mapPut m (goTrimSpace k) (goTrimSpace v)
    | _ => m
  else if i == 0 then mapPut m "arg1" part
  else if i == 1 then mapPut m "arg2" part
  else m

/-- Per-token transform of `parseFunctionArgs`. -/
def pfaToken (p : String) : String :=
  let part := goTrimSpace p
  if goHasPre part "\"" && goHasSuf part "\"" then goTrimChar part '"' else part

/-- Loop of `parseFunctionArgs` (append-accumulate, as in the Go loop). -/
def pfaLoop : List String → List String → List String
  | [], acc => acc
  | p :: rest, acc => pfaLoop rest (acc ++ [pfaToken p])

/-- `parser.parseFunctionArgs`. -/
def parseFunctionArgs (args : String) : List String :=
  pfaLoop (goFields args) []

/-- `parser.parseField`; `none` models the Go panic (slice bounds out of
range) when an argument list has `(` but no `)` after it. -/
def parseField (line0 : String) : Option Field :=
  let line := goTrimSpace (goTrimPre line0 "- ")
  match goSplit line " is " with
  | [p0, p1] =>
    let name := goTrimSpace p0
    let typeDef := goTrimSpace p1
    if goHasPre typeDef "action" then
      match goSplit typeDef " thru " with
      | [_, a1] =>
        let at0 := goTrimSpace a1
        if goContains at0 "(" then
          match goSlice at0 (goIdx at0 "(" + 1) (goIdx at0 ")") with
          | none => none
          | some args =>
            let pa := parseActionArgs args
            some { Name := name, IsAction := true,
                   ActionType := goTake at0 (goIdx at0 "("),
                   ActionArgs := pa.1, RequiredParams := pa.2 }
        else some { Name := name, IsAction := true, ActionType := at0 }
      | _ => some { Name := name, IsAction := true }
    else if goHasPre typeDef "many" then
      match goSplit typeDef " thru " with
      | [_, t1] => some { Name := name, IsMany := true, Through := goTrimSpace t1 }
      | _ => some { Name := name, IsMany := true }
    else if goContains typeDef " thru " then
      match goSplit typeDef " thru " with
      | t0 :: f1 :: _ =>
        let fdef := goTrimSpace f1
        if goContains fdef "(" then
          match goSlice fdef (goIdx fdef "(" + 1) (goIdx fdef ")") with
          | none => none
          | some args =>
            some { Name := name, Type' := goTrimSpace t0,
                   FunctionName := goTake fdef (goIdx fdef "("),
                   FunctionArgs := parseFunctionArgs args }
        else some { Name := name, Type' := goTrimSpace t0 }
      | _ => none
    else
      some { Name := name, Type' := typeDef }
  | _ => some {}

/-- Append a field to the last entity (the Go `currentEntity` pointer
always designates the last appended entity). -/
def appendFieldLast : List Entity → Field → List Entity
  | [], _ => []
  | [e], f => [{ e with Fields := e.Fields ++ [f] }]
  | e :: e2 :: rest, f => e :: appendFieldLast (e2 :: rest) f

/-- One iteration of the `ParseStateQL` scan loop. -/
def stepLine (es : List Entity) (raw : String) : Option (List Entity) :=
  let line := goTrimSpace raw
  if line = "" then some es
  else if goHasPre line "-" = false then
    some (es ++ [{ Name := goTrimSuf line ":" }])
  else
    match es with
    | [] => some es
    | _ :: _ => (parseField line).map (fun f => appendFieldLast es f)

/-- The scan loop of `ParseStateQL` over a list of lines. -/
def runLines : List Entity → List String → Option (List Entity)
  | es, [] => some es
  | es, l :: ls =>
    match stepLine es l with
    | none => none
    | some es2 => runLines es2 ls

/-- `bufio.ScanLines` drops one trailing carriage return per line. -/
def dropCR (l : String) : String :=
  if goHasSuf l "\r" then ⟨l.data.take (l.data.length - 1)⟩ else l

/-- The line stream produced by `bufio.Scanner` with `ScanLines`. -/
def splitLines (s : String) : List String := (goSplit s "\n").map dropCR

/-- `parser.ParseStateQL`; the sole Go return statement is
`return &stateql, nil`, and `none` models a panic inside `parseField`. -/
def ParseStateQL (content : String) : Option (StateQL × Option String) :=
  (runLines [] (splitLines content)).map (fun es => (⟨es⟩, none))

/-- `db.mapTypeToPostgres`. -/
def mapTypeToPostgres (t : String) : String :=
  let lt := goToLower t
  if lt = "text" then "TEXT"
  else if lt = "number" then "NUMERIC"
  else if lt = "switch" then "BOOLEAN"
  else if lt = "date" then "DATE"
  else if lt = "timestamp" then "TIMESTAMP"
  else if lt = "seconds" then "INTEGER"
  else "TEXT"

/-- The `"%s %s,"` column clause appended per non-many non-action field. -/
def colSQL (f : Field) : String :=
  goToLower f.Name ++ " " ++ mapTypeToPostgres f.Type' ++ ","

/-- The DDL string built by `db.createTable` for one entity. -/
def createTableSQL (e : Entity) : String :=
  let base := "CREATE TABLE IF NOT EXISTS " ++ goToLower e.Name ++ " (" ++
    "id SERIAL PRIMARY KEY,"
  let withCols := e.Fields.foldl
    (fun acc f => if !f.IsMany && !f.IsAction then acc ++ colSQL f else acc) base
  goTrimSuf withCols "," ++ ")"

/-- The DDL string built by `db.createRelationships` for one many-field
(whitespace exactly as in the Go raw string literal). -/
def junctionSQL (e : Entity) (f : Field) : String :=
  let tbl := goToLower e.Name ++ "_" ++ goToLower f.Name
  let en := goToLower e.Name
  let th := goToLower f.Through
  "\n\t\t\t\tCREATE TABLE IF NOT EXISTS " ++ tbl ++ " (\n\t\t\t\t\t" ++
  en ++ "_id INTEGER REFERENCES " ++ en ++ "(id),\n\t\t\t\t\t" ++
  th ++ "_id INTEGER REFERENCES " ++ th ++ "(id),\n\t\t\t\t\tPRIMARY KEY (" ++
  en ++ "_id, " ++ th ++ "_id)\n\t\t\t\t)"

/-- The junction statements one entity contributes, in field order. -/
def relationshipSQLs (e : Entity) : List String :=
  (e.Fields.filter (·.IsMany)).map (junctionSQL e)

/-- All DDL statements `GenerateSchema` submits, in submission order:
the table pass over all entities, then the relationship pass. -/
def allStatements (m : StateQL) : List String :=
  m.Entities.map createTableSQL ++ m.Entities.flatMap relationshipSQLs

/-- Execute statements in order through the external executor, stopping
at the first failure; returns the executed trace and the outcome. -/
def execSeq {ε : Type} (exec : String → Except ε Unit) :
    List String → List String × Except ε Unit
  | [] => ([], Except.ok ())
  | s :: rest =>
    match exec s with
    | Except.error e => ([s], Except.error e)
    | Except.ok _ =>
      let r := execSeq exec rest
      (s :: r.1, r.2)

/-- `db.GenerateSchema`: the table pass, then (if it succeeded) the
relationship pass; any executor error aborts the remainder and is
returned unmodified. -/
def GenerateSchema {ε : Type} (exec : String → Except ε Unit) (m : StateQL) :
    List String × Except ε Unit :=
  let t := execSeq exec (m.Entities.map createTableSQL)
  match t.2 with
  | Except.error e => (t.1, Except.error e)
  | Except.ok _ =>
    let r := execSeq exec (m.Entities.flatMap relationshipSQLs)
    (t.1 ++ r.1, r.2)

/-- Concatenation of a list of strings (used to state column layouts). -/
def strConcat : List String → String
  | [] => ""
  | s :: l => s ++ strConcat l

/-- The trimmed header-line text with one trailing `:` stripped — the
entity name the Entity Block Builder records. -/
def headerName (l : String) : String := goTrimSuf (goTrimSpace l) ":"

/-- Parse a block of already-trimmed field lines in order; `none` if any
line makes `parseField` panic. -/
def parseFieldsOpt : List String → Option (List Field)
  | [] => some []
  | l :: ls =>
    match parseField (goTrimSpace l) with
    | none => none
    | some f => (parseFieldsOpt ls).map (f :: ·)

/-- The token at index `i` of a token list, if it is positional
(neither `:`-prefixed nor containing `=`; trimmed as the loop does). -/
def posTokL (l : List String) (i : Nat) : Option String :=
  match l[i]? with
  | some t =>
    if goHasPre (goTrimSpace t) ":" then none
    else if goContains (goTrimSpace t) "=" then none
    else some (goTrimSpace t)
  | none => none

/-- The token at index `i` of the whitespace-split argument text, if it
is positional. -/
def posTok (args : String) (i : Nat) : Option String :=
  posTokL (goFields args) i

/-! ### Claim C1 -/

/-- C1: parsing `"User:\n- id is text\n- friends is many User thru
befriendedBy"` and compiling yields exactly one `CREATE TABLE IF NOT
EXISTS` statement for the table `user` and one junction-table statement
for `user_friends` whose two columns are `user_id` and `befriendedby_id`
with a composite primary key over both columns. -/
theorem C1_compile_user_friends :
    (ParseStateQL "User:\n- id is text\n- friends is many User thru befriendedBy").map
      (fun p => allStatements p.1) =
    some ["CREATE TABLE IF NOT EXISTS user (id SERIAL PRIMARY KEY,id TEXT)",
      "\n\t\t\t\tCREATE TABLE IF NOT EXISTS user_friends (\n\t\t\t\t\tuser_id INTEGER REFERENCES user(id),\n\t\t\t\t\tbefriendedby_id INTEGER REFERENCES befriendedby(id),\n\t\t\t\t\tPRIMARY KEY (user_id, befriendedby_id)\n\t\t\t\t)"] := by
  decide

/-! ### Claim C9 -/

/-- C9: a field line classified as Action (or Computed) whose
parenthesized argument list has `(` with no `)` after it makes
`parseField` hit the out-of-bounds slice built from the `-1` returned by
`strings.Index` — the panic branch (modelled by `none`) is reachable,
also through the public `ParseStateQL`, so `parseField` is not total on
field lines. -/
theorem C9_slice_panic_reachable :
    parseField "- x is action thru put(files" = none ∧
    parseField "- y is number thru count(x" = none ∧
    ParseStateQL "User:\n- x is action thru put(files" = none := by
  decide

/-! ### Claims C7 and C8 -/

/-- A non-blank line not starting with the field marker always appends a
fresh entity (named by the trimmed line with one trailing `:` stripped)
at the end of the entity list, whatever that list already contains. -/
theorem stepLine_header (es : List Entity) (raw : String)
    (h1 : goTrimSpace raw ≠ "") (h2 : goHasPre (goTrimSpace raw) "-" = false) :
    stepLine es raw = some (es ++ [{ Name := headerName raw }]) := by
  simp [stepLine, headerName, h1, h2]

/-- C7 counterexample: on the input
`"U:\n- x is action thru put(files"` the parser panics (out-of-bounds
slice) instead of returning a best-effort model, so `ParseStateQL` does
not succeed on all inputs as claimed. -/
theorem C7_counterexample_panic :
    ParseStateQL "U:\n- x is action thru put(files" = none := by
  decide

/-- C7 (amended): whenever `ParseStateQL` returns (its single `return`
statement is `return &stateql, nil`), the error component is nil; on
some malformed action/computed field lines it instead panics and does
not return at all. -/
theorem C7_nil_error_on_return (s : String) (p : StateQL × Option String)
    (h : ParseStateQL s = some p) : p.2 = none := by
  unfold ParseStateQL at h
  rcases hr : runLines [] (splitLines s) with _ | es <;> rw [hr] at h
  · exact absurd h (by simp)
  · simp only [Option.map_some'] at h
    cases h
    rfl

/-- C7 witness: the amended theorem applied to the empty input. -/
theorem C7_nil_error_on_return_witness :
    ((⟨⟨[]⟩, none⟩ : StateQL × Option String)).2 = none :=
  C7_nil_error_on_return "" ⟨⟨[]⟩, none⟩ (by decide)

/-- C8 counterexample: the input `"A:\nA:"` parses to a model whose two
entities share the name `A`, so entity names produced by `ParseStateQL`
are not unique within the model. -/
theorem C8_counterexample_duplicate_names :
    (ParseStateQL "A:\nA:").map (fun p => p.1.Entities.map Entity.Name) =
      some ["A", "A"] ∧ ¬ (["A", "A"] : List String).Nodup := by
  decide

/-- C8 (amended): entity-name uniqueness is not enforced — every
non-blank header line unconditionally appends a new entity, even when an
entity with the same name is already present. -/
theorem C8_header_always_appends (es : List Entity) (raw : String)
    (h1 : goTrimSpace raw ≠ "") (h2 : goHasPre (goTrimSpace raw) "-" = false) :
    stepLine es raw = some (es ++ [{ Name := headerName raw }]) :=
  stepLine_header es raw h1 h2

/-- C8 witness: a second header `A:` is appended next to an existing
entity already named `A`. -/
theorem C8_header_always_appends_witness :
    stepLine [{ Name := "A" }] "A:" = some [{ Name := "A" }, { Name := "A" }] :=
  C8_header_always_appends [{ Name := "A" }] "A:" (by decide) (by decide)

/-! ### Claim C4 -/

/-- The append-accumulate loop of `parseFunctionArgs` is a map. -/
theorem pfaLoop_eq (l : List String) : ∀ acc, pfaLoop l acc = acc ++ l.map pfaToken := by
  induction l with
  | nil => intro acc; simp [pfaLoop]
  | cons p rest ih => intro acc; simp [pfaLoop, ih]

/-- C4 counterexample: on the doubly-quoted token `""short""` the code
strips every leading and trailing quote (`strings.Trim`), returning
`short`, not the single-layer-stripped `"short"` the claim requires. -/
theorem C4_counterexample_quote_trim :
    parseFunctionArgs "\"\"short\"\"" = ["short"] ∧
    (["short"] : List String) ≠ ["\"short\""] := by
  decide

/-- C4 (amended): a token that both starts and ends with a double quote
has all leading and trailing double-quote characters stripped (not just
one layer) before being appended at its position in `FunctionArgs`; in
particular `parseFunctionArgs` on the text `"short"` (quotes included)
yields the one-element list containing `short`. -/
theorem C4_quote_stripping :
    (∀ (args : String) (i : Nat) (t : String), (goFields args)[i]? = some t →
      goHasPre (goTrimSpace t) "\"" = true → goHasSuf (goTrimSpace t) "\"" = true →
      (parseFunctionArgs args)[i]? = some (goTrimChar (goTrimSpace t) '"')) ∧
    parseFunctionArgs "\"short\"" = ["short"] := by
  constructor
  · intro args i t ht h1 h2
    unfold parseFunctionArgs
    rw [pfaLoop_eq]
    simp only [List.nil_append, List.getElem?_map, ht, Option.map_some']
    simp [pfaToken, h1, h2]
  · decide

/-- C4 witness: the amended theorem applied to the token `"a"` at
position 0 of the argument text `"a" b`. -/
theorem C4_quote_stripping_witness :
    (parseFunctionArgs "\"a\" b")[0]? = some (goTrimChar (goTrimSpace "\"a\"") '"') :=
  C4_quote_stripping.1 "\"a\" b" 0 "\"a\"" (by decide) (by decide) (by decide)

/-! ### Claim C3 -/

/-- The map component of the loop ignores the required-parameter
accumulator. -/
theorem paaLoop_fst_req_irrel (l : List String) : ∀ (i : Nat) m req1 req2,
    (paaLoop i l m req1).1 = (paaLoop i l m req2).1 := by
  induction l with
  | nil => intro i m r1 r2; rfl
  | cons p rest ih =>
    intro i m r1 r2
    simp only [paaLoop]
    split
    · exact ih _ _ _ _
    · split
      · split
        · exact ih _ _ _ _
        · exact ih _ _ _ _
      · split
        · exact ih _ _ _ _
        · split
          · exact ih _ _ _ _
          · exact ih _ _ _ _

/-- One loop iteration acts on the map exactly as `paaStepM`. -/
theorem paaLoop_fst_cons (p : String) (rest : List String) (i : Nat)
    (m : List (String × String)) (req : List String) :
    (paaLoop i (p :: rest) m req).1 = (paaLoop (i + 1) rest (paaStepM i p m) req).1 := by
  simp only [paaLoop, paaStepM]
  split
  · exact paaLoop_fst_req_irrel rest (i + 1) m _ _
  · split
    · split
      · rfl
      · rfl
    · split
      · rfl
      · split
        · rfl
        · rfl

/-- A step never removes a stored entry. -/
theorem mem_paaStepM_of_mem (i : Nat) (p : String) (m : List (String × String))
    (x : String × String) (hx : x ∈ m) : x ∈ paaStepM i p m := by
  simp only [paaStepM, mapPut]
  split
  · exact hx
  · split
    · split
      · exact List.mem_cons_of_mem _ hx
      · exact hx
    · split
      · exact List.mem_cons_of_mem _ hx
      · split
        · exact List.mem_cons_of_mem _ hx
        · exact hx

/-- The whole loop never removes a stored entry. -/
theorem paaLoop_mem_mono (l : List String) : ∀ (i : Nat) m req (x : String × String),
    x ∈ m → x ∈ (paaLoop i l m req).1 := by
  induction l with
  | nil => intro i m req x hx; exact hx
  | cons p rest ih =>
    intro i m req x hx
    rw [paaLoop_fst_cons]
    exact ih _ _ _ _ (mem_paaStepM_of_mem i p m x hx)

/-- A positional token at index 0 is stored under `arg1`. -/
theorem mem_paaStepM_arg1 (p : String) (m : List (String × String))
    (h1 : goHasPre (goTrimSpace p) ":" = false)
    (h2 : goContains (goTrimSpace p) "=" = false) :
    ("arg1", goTrimSpace p) ∈ paaStepM 0 p m := by
  simp [paaStepM, mapPut, h1, h2]

/-- A positional token at index 1 is stored under `arg2`. -/
theorem mem_paaStepM_arg2 (p : String) (m : List (String × String))
    (h1 : goHasPre (goTrimSpace p) ":" = false)
    (h2 : goContains (goTrimSpace p) "=" = false) :
    ("arg2", goTrimSpace p) ∈ paaStepM 1 p m := by
  simp [paaStepM, mapPut, h1, h2]

/-- Every entry a step adds is the index-0 positional `arg1` store, the
index-1 positional `arg2` store, or a `key=value` store. -/
theorem mem_paaStepM_elim (i : Nat) (p : String) (m : List (String × String))
    (x : String × String) (h : x ∈ paaStepM i p m) :
    x ∈ m ∨
    (goHasPre (goTrimSpace p) ":" = false ∧ ∃ k0 v0,
      goSplit (goTrimSpace p) "=" = [k0, v0] ∧ x = (goTrimSpace k0, goTrimSpace v0)) ∨
    (i = 0 ∧ goHasPre (goTrimSpace p) ":" = false ∧
      goContains (goTrimSpace p) "=" = false ∧ x = ("arg1", goTrimSpace p)) ∨
    (i = 1 ∧ goHasPre (goTrimSpace p) ":" = false ∧
      goContains (goTrimSpace p) "=" = false ∧ x = ("arg2", goTrimSpace p)) := by
  by_cases hc1 : goHasPre (goTrimSpace p) ":" = true
  · simp only [paaStepM, hc1, if_true] at h
    exact Or.inl h
  · have hc1f : goHasPre (goTrimSpace p) ":" = false := by
      simpa using hc1
    by_cases hc2 : goContains (goTrimSpace p) "=" = true
    · simp only [paaStepM, hc1f, Bool.false_eq_true, if_false, hc2, if_true] at h
      rcases hs : goSplit (goTrimSpace p) "=" with _ | ⟨k0, _ | ⟨v0, _ | _⟩⟩ <;>
        rw [hs] at h
      · exact Or.inl h
      · exact Or.inl h
      · rcases List.mem_cons.mp h with hx | hx
        · exact Or.inr (Or.inl ⟨hc1f, k0, v0, rfl, hx⟩)
        · exact Or.inl hx
      · exact Or.inl h
    · have hc2f : goContains (goTrimSpace p) "=" = false := by
        simpa using hc2
      match i with
      | 0 =>
        have e0 : ((0 : Nat) == 0) = true := by decide
        simp only [paaStepM, hc1f, hc2f, Bool.false_eq_true, if_false, e0,
          if_true, mapPut] at h
        rcases List.mem_cons.mp h with hx | hx
        · exact Or.inr (Or.inr (Or.inl ⟨rfl, hc1f, hc2f, hx⟩))
        · exact Or.inl hx
      | 1 =>
        have e0 : ((1 : Nat) == 0) = false := by decide
        have e1 : ((1 : Nat) == 1) = true := by decide
        simp only [paaStepM, hc1f, hc2f, Bool.false_eq_true, if_false, e0, e1,
          if_true, mapPut] at h
        rcases List.mem_cons.mp h with hx | hx
        · exact Or.inr (Or.inr (Or.inr ⟨rfl, hc1f, hc2f, hx⟩))
        · exact Or.inl hx
      | n + 2 =>
        have e0 : ((n + 2 : Nat) == 0) = false := by
          simp only [beq_eq_false_iff_ne, ne_eq]
          omega
        have e1 : ((n + 2 : Nat) == 1) = false := by
          simp only [beq_eq_false_iff_ne, ne_eq]
          omega
        simp only [paaStepM, hc1f, hc2f, Bool.false_eq_true, if_false, e0, e1] at h
        exact Or.inl h

/-- From index 2 on, the only entries the loop can still add come from
`key=value` tokens: positional tokens there are dropped. -/
theorem paaLoop_mem_ge2 (l : List String) : ∀ (i : Nat) m req (x : String × String),
    2 ≤ i → x ∈ (paaLoop i l m req).1 →
    x ∈ m ∨ ∃ t ∈ l, goHasPre (goTrimSpace t) ":" = false ∧
      ∃ k0 v0, goSplit (goTrimSpace t) "=" = [k0, v0] ∧
        x = (goTrimSpace k0, goTrimSpace v0) := by
  induction l with
  | nil => intro i m req x hi hx; exact Or.inl hx
  | cons p rest ih =>
    intro i m req x hi hx
    rw [paaLoop_fst_cons] at hx
    rcases ih (i + 1) (paaStepM i p m) req x (by omega) hx with hm | ⟨t, ht, hsrc⟩
    · rcases mem_paaStepM_elim i p m x hm with
        h0 | ⟨hcp, k0, v0, hs, hx2⟩ | ⟨hi0, _⟩ | ⟨hi1, _⟩
      · exact Or.inl h0
      · exact Or.inr ⟨p, by simp, hcp, k0, v0, hs, hx2⟩
      · omega
      · omega
    · exact Or.inr ⟨t, by simp [ht], hsrc⟩

/-- Inversion of `posTokL` at the head of the token list. -/
theorem posTokL_cons0 (t : String) (rest : List String) (v : String)
    (h : posTokL (t :: rest) 0 = some v) :
    goHasPre (goTrimSpace t) ":" = false ∧ goContains (goTrimSpace t) "=" = false ∧
      v = goTrimSpace t := by
  simp only [posTokL, List.getElem?_cons_zero] at h
  by_cases h1 : goHasPre (goTrimSpace t) ":" = true
  · rw [if_pos h1] at h
    exact absurd h (by simp)
  · rw [if_neg h1] at h
    by_cases h2 : goContains (goTrimSpace t) "=" = true
    · rw [if_pos h2] at h
      exact absurd h (by simp)
    · rw [if_neg h2] at h
      have hv : goTrimSpace t = v := by
        exact Option.some.inj h
      exact ⟨by simpa using h1, by simpa using h2, hv.symm⟩

theorem posTokL_cons_succ (t : String) (l : List String) (i : Nat) :
    posTokL (t :: l) (i + 1) = posTokL l i := by
  simp [posTokL]

/-- C3 counterexample: in the argument text `:key foo` the first
positional token is `foo`, yet it is stored under `arg2` (its absolute
index is 1) and `arg1` is absent, contradicting the claim that the first
positional token always lands under `arg1`. -/
theorem C3_counterexample_first_positional :
    mapGet (parseActionArgs ":key foo").1 "arg1" = none ∧
    mapGet (parseActionArgs ":key foo").1 "arg2" = some "foo" := by
  decide

/-- C3 list-level form: (a) the index-0 token, if positional, is stored
under `arg1`; (b) the index-1 token, if positional, under `arg2`; and
(c) every stored entry is one of those two stores or comes from a
`key=value` token — in particular a positional token at index 2 or
later contributes nothing, regardless of the `:`-prefixed or
`=`-containing tokens around it. -/
theorem paaMain (l : List String) :
    (∀ v, posTokL l 0 = some v → ("arg1", v) ∈ (paaLoop 0 l [] []).1) ∧
    (∀ v, posTokL l 1 = some v → ("arg2", v) ∈ (paaLoop 0 l [] []).1) ∧
    (∀ k v, (k, v) ∈ (paaLoop 0 l [] []).1 →
      (k = "arg1" ∧ posTokL l 0 = some v) ∨
      (k = "arg2" ∧ posTokL l 1 = some v) ∨
      (∃ t ∈ l, goHasPre (goTrimSpace t) ":" = false ∧
        ∃ k0 v0, goSplit (goTrimSpace t) "=" = [k0, v0] ∧
          (k, v) = (goTrimSpace k0, goTrimSpace v0))) := by
  rcases l with _ | ⟨t0, _ | ⟨t1, rest⟩⟩
  · refine ⟨?_, ?_, ?_⟩
    · intro v hv
      exact absurd hv (by simp [posTokL])
    · intro v hv
      exact absurd hv (by simp [posTokL])
    · intro k v hkv
      exact absurd hkv (by simp [paaLoop])
  · refine ⟨?_, ?_, ?_⟩
    · intro v hv
      obtain ⟨h1, h2, hv2⟩ := posTokL_cons0 t0 [] v hv
      rw [hv2, paaLoop_fst_cons]
      exact paaLoop_mem_mono [] 1 _ [] _ (mem_paaStepM_arg1 t0 [] h1 h2)
    · intro v hv
      rw [posTokL_cons_succ] at hv
      exact absurd hv (by simp [posTokL])
    · intro k v hkv
      rw [paaLoop_fst_cons] at hkv
      rcases mem_paaStepM_elim 0 t0 [] (k, v) hkv with
        h0 | ⟨hcp, k0, v0, hs, hx⟩ | ⟨_, hc1, hc2, hx⟩ | ⟨h10, _⟩
      · exact absurd h0 (by simp)
      · exact Or.inr (Or.inr ⟨t0, by simp, hcp, k0, v0, hs, hx⟩)
      · have hk : k = "arg1" := congrArg Prod.fst hx
        have hv : v = goTrimSpace t0 := congrArg Prod.snd hx
        refine Or.inl ⟨hk, ?_⟩
        simp [posTokL, hc1, hc2, hv]
      · omega
  · refine ⟨?_, ?_, ?_⟩
    · intro v hv
      obtain ⟨h1, h2, hv2⟩ := posTokL_cons0 t0 (t1 :: rest) v hv
      rw [hv2, paaLoop_fst_cons]
      exact paaLoop_mem_mono (t1 :: rest) 1 _ [] _ (mem_paaStepM_arg1 t0 [] h1 h2)
    · intro v hv
      rw [posTokL_cons_succ] at hv
      obtain ⟨h1, h2, hv2⟩ := posTokL_cons0 t1 rest v hv
      rw [hv2, paaLoop_fst_cons, paaLoop_fst_cons]
      exact paaLoop_mem_mono rest 2 _ [] _
        (mem_paaStepM_arg2 t1 (paaStepM 0 t0 []) h1 h2)
    · intro k v hkv
      rw [paaLoop_fst_cons, paaLoop_fst_cons] at hkv
      rcases paaLoop_mem_ge2 rest 2 _ [] (k, v) (by omega) hkv with hm | ⟨t, ht, hsrc⟩
      · rcases mem_paaStepM_elim 1 t1 _ (k, v) hm with
          hm0 | ⟨hcp, k0, v0, hs, hx⟩ | ⟨h01, _⟩ | ⟨_, hc1, hc2, hx⟩
        · rcases mem_paaStepM_elim 0 t0 [] (k, v) hm0 with
            h00 | ⟨hcp, k0, v0, hs, hx⟩ | ⟨_, hc1, hc2, hx⟩ | ⟨h10, _⟩
          · exact absurd h00 (by simp)
          · exact Or.inr (Or.inr ⟨t0, by simp, hcp, k0, v0, hs, hx⟩)
          · have hk : k = "arg1" := congrArg Prod.fst hx
            have hv : v = goTrimSpace t0 := congrArg Prod.snd hx
            refine Or.inl ⟨hk, ?_⟩
            simp [posTokL, hc1, hc2, hv]
          · omega
        · exact Or.inr (Or.inr ⟨t1, by simp, hcp, k0, v0, hs, hx⟩)
        · omega
        · have hk : k = "arg2" := congrArg Prod.fst hx
          have hv : v = goTrimSpace t1 := congrArg Prod.snd hx
          refine Or.inr (Or.inl ⟨hk, ?_⟩)
          rw [posTokL_cons_succ]
          simp [posTokL, hc1, hc2, hv]
      · exact Or.inr (Or.inr ⟨t, by simp [ht], hsrc⟩)

/-- C3 (amended): positional tokens (tokens that neither begin with `:`
nor contain `=`) are assigned by absolute index in the whole token list,
not by positional count — the token at index 0, if positional, is stored
under `arg1`; the token at index 1, if positional, under `arg2`; and
every entry ever stored in `ActionArgs` is one of those two stores or
comes from a `key=value` token, so a positional token at index 2 or
later is silently dropped and a positional token preceded by any other
token is never stored under `arg1` — with no restriction on how many
`:`-prefixed or `=`-containing tokens surround them. (`ActionArgs` is
modelled as the chronological list of map stores; lookup takes the most
recent one.) -/
theorem C3_positional_by_index (args : String) :
    (∀ v, posTok args 0 = some v → ("arg1", v) ∈ (parseActionArgs args).1) ∧
    (∀ v, posTok args 1 = some v → ("arg2", v) ∈ (parseActionArgs args).1) ∧
    (∀ k v, (k, v) ∈ (parseActionArgs args).1 →
      (k = "arg1" ∧ posTok args 0 = some v) ∨
      (k = "arg2" ∧ posTok args 1 = some v) ∨
      (∃ t ∈ goFields args, goHasPre (goTrimSpace t) ":" = false ∧
        ∃ k0 v0, goSplit (goTrimSpace t) "=" = [k0, v0] ∧
          (k, v) = (goTrimSpace k0, goTrimSpace v0))) :=
  paaMain (goFields args)

/-- C3 witness: in `:key a arg1=z b` the positional token `a` (absolute
index 1) is stored under `arg2`, and the entry `arg1 ↦ z` — present even
though no positional token ever went to `arg1` — is accounted for by the
`=`-token `arg1=z`; the positional `b` at index 3 contributes nothing. -/
theorem C3_positional_by_index_witness :
    ("arg2", "a") ∈ (parseActionArgs ":key a arg1=z b").1 ∧
    (("arg1" = "arg1" ∧ posTok ":key a arg1=z b" 0 = some "z") ∨
     ("arg1" = "arg2" ∧ posTok ":key a arg1=z b" 1 = some "z") ∨
     (∃ t ∈ goFields ":key a arg1=z b", goHasPre (goTrimSpace t) ":" = false ∧
       ∃ k0 v0, goSplit (goTrimSpace t) "=" = [k0, v0] ∧
         (("arg1" : String), ("z" : String)) = (goTrimSpace k0, goTrimSpace v0))) :=
  ⟨(C3_positional_by_index ":key a arg1=z b").2.1 "a" (by decide),
   (C3_positional_by_index ":key a arg1=z b").2.2 "arg1" "z" (by decide)⟩

/-! ### Claims C5 and C10 -/

theorem isPrefixOf_self_append (x y : List Char) : x.isPrefixOf (x ++ y) = true := by
  induction x with
  | nil => simp [List.isPrefixOf]
  | cons c cs ih => simp [List.isPrefixOf, ih]

theorem goHasSuf_append (s t : String) : goHasSuf (s ++ t) t = true := by
  simp [goHasSuf, String.data_append, List.isSuffixOf, List.reverse_append,
    isPrefixOf_self_append]

theorem goTrimSuf_append (s t : String) : goTrimSuf (s ++ t) t = s := by
  simp only [goTrimSuf, goHasSuf_append, if_true]
  rw [String.data_append]
  simp only [List.length_append, Nat.add_sub_cancel, List.take_left]

/-- The column-accumulating fold of `createTable`, as a concatenation of
the kept fields' clauses. -/
theorem foldl_cols (l : List Field) : ∀ acc : String,
    l.foldl (fun acc f => if !f.IsMany && !f.IsAction then acc ++ colSQL f else acc) acc
      = acc ++ strConcat ((l.filter (fun f => !f.IsMany && !f.IsAction)).map colSQL) := by
  induction l with
  | nil => intro acc; simp [strConcat]
  | cons f fs ih =>
    intro acc
    by_cases hf : (!f.IsMany && !f.IsAction) = true
    · simp only [List.foldl_cons, List.filter_cons, hf, if_true, List.map_cons,
        strConcat, ih]
      rw [String.append_assoc]
    · simp only [List.foldl_cons, List.filter_cons, hf, Bool.false_eq_true,
        if_false, ih]

/-- Moving the per-column trailing commas to leading position. -/
theorem comma_rot (l : List Field) :
    "," ++ strConcat (l.map colSQL) =
      strConcat (l.map (fun f =>
        "," ++ goToLower f.Name ++ " " ++ mapTypeToPostgres f.Type')) ++ "," := by
  induction l with
  | nil => simp [strConcat]
  | cons f fs ih =>
    simp only [List.map_cons, strConcat, colSQL, String.append_assoc, ih]

theorem comma_rot' (X : String) (l : List Field) :
    (X ++ ",") ++ strConcat (l.map colSQL) =
      (X ++ strConcat (l.map (fun f =>
        "," ++ goToLower f.Name ++ " " ++ mapTypeToPostgres f.Type'))) ++ "," := by
  rw [String.append_assoc, comma_rot, ← String.append_assoc]

/-- Shape of the `createTable` statement: lowercased table name, the
synthetic `id` primary key first, then one `,<lowercased name> <mapped
type>` clause per non-many non-action field, in field order. -/
theorem createTableSQL_eq (e : Entity) :
    createTableSQL e =
      "CREATE TABLE IF NOT EXISTS " ++ goToLower e.Name ++ " (id SERIAL PRIMARY KEY" ++
      strConcat ((e.Fields.filter (fun f => !f.IsMany && !f.IsAction)).map
        (fun f => "," ++ goToLower f.Name ++ " " ++ mapTypeToPostgres f.Type')) ++
      ")" := by
  simp only [createTableSQL]
  rw [foldl_cols]
  rw [show ("id SERIAL PRIMARY KEY," : String) = "id SERIAL PRIMARY KEY" ++ "," from
    by decide]
  rw [← String.append_assoc, comma_rot', goTrimSuf_append]
  rw [String.append_assoc ("CREATE TABLE IF NOT EXISTS " ++ goToLower e.Name)]
  rw [show (" (" ++ "id SERIAL PRIMARY KEY" : String) = " (id SERIAL PRIMARY KEY" from
    by decide]

/-- C5: the table pass emits, per entity, a single `CREATE TABLE IF NOT
EXISTS` statement for the lowercased entity name with the synthetic `id
SERIAL PRIMARY KEY` column first and then exactly one column (lowercased
field name, Type-Mapper type) per non-many, non-action (Scalar or
Computed) field in declaration order; an entity declaring its own `id`
field yields two columns named `id`, emitted as-is. -/
theorem C5_table_pass :
    (∀ e : Entity, createTableSQL e =
      "CREATE TABLE IF NOT EXISTS " ++ goToLower e.Name ++ " (id SERIAL PRIMARY KEY" ++
      strConcat ((e.Fields.filter (fun f => !f.IsMany && !f.IsAction)).map
        (fun f => "," ++ goToLower f.Name ++ " " ++ mapTypeToPostgres f.Type')) ++
      ")") ∧
    createTableSQL { Name := "User", Fields := [{ Name := "id", Type' := "text" }] } =
      "CREATE TABLE IF NOT EXISTS user (id SERIAL PRIMARY KEY,id TEXT)" :=
  ⟨createTableSQL_eq, by decide⟩

/-- C10: a field line that does not split into exactly two parts on
`" is "` parses to the zero-value `Field` (empty name, not many, not
action), and the table pass then emits a column whose name is the empty
string and whose type is `TEXT` (the `, TEXT` clause). -/
theorem C10_malformed_field_zero_value (line : String)
    (h : (goSplit (goTrimSpace (goTrimPre line "- ")) " is ").length ≠ 2) :
    parseField line = some {} ∧
    ∀ name : String, createTableSQL { Name := name, Fields := [{}] } =
      "CREATE TABLE IF NOT EXISTS " ++ goToLower name ++
        " (id SERIAL PRIMARY KEY, TEXT)" := by
  constructor
  · simp only [parseField]
    rcases hs : goSplit (goTrimSpace (goTrimPre line "- ")) " is " with _ | ⟨a, rest1⟩
    · rfl
    · rcases rest1 with _ | ⟨b, rest2⟩
      · rfl
      · rcases rest2 with _ | ⟨c, rest3⟩
        · exact absurd (by rw [hs]; rfl :
            (goSplit (goTrimSpace (goTrimPre line "- ")) " is ").length = 2) h
        · rfl
  · intro name
    rw [createTableSQL_eq]
    simp only [String.append_assoc]
    congr 1

/-- C10 witness: the line `x` has no `" is "` separator; it parses to
the zero-value field and compiles to the empty-name `TEXT` column. -/
theorem C10_malformed_field_zero_value_witness :
    parseField "x" = some {} ∧
    createTableSQL { Name := "T", Fields := [{}] } =
      "CREATE TABLE IF NOT EXISTS t (id SERIAL PRIMARY KEY, TEXT)" := by
  have h := C10_malformed_field_zero_value "x" (by decide)
  exact ⟨h.1, h.2 "T"⟩

/-! ### Claim C6 -/

theorem execSeq_append {ε : Type} (exec : String → Except ε Unit) (a b : List String) :
    execSeq exec (a ++ b) =
      match (execSeq exec a).2 with
      | Except.error e => ((execSeq exec a).1, Except.error e)
      | Except.ok _ =>
        ((execSeq exec a).1 ++ (execSeq exec b).1, (execSeq exec b).2) := by
  induction a with
  | nil => simp [execSeq]
  | cons s rest ih =>
    simp only [List.cons_append, execSeq, List.append_eq]
    cases exec s with
    | error e => rfl
    | ok u =>
      rw [ih]
      cases hr : (execSeq exec rest).2 with
      | error e => rfl
      | ok u2 => rfl

theorem GenerateSchema_eq_execSeq {ε : Type} (exec : String → Except ε Unit)
    (m : StateQL) : GenerateSchema exec m = execSeq exec (allStatements m) := by
  simp only [GenerateSchema, allStatements, execSeq_append]

theorem execSeq_fail_after {ε : Type} (exec : String → Except ε Unit)
    (s : String) (e : ε) (post : List String) (hs : exec s = Except.error e) :
    ∀ pre : List String, (∀ t ∈ pre, exec t = Except.ok ()) →
    execSeq exec (pre ++ s :: post) = (pre ++ [s], Except.error e) := by
  intro pre
  induction pre with
  | nil => intro _; simp [execSeq, hs]
  | cons t rest ih =>
    intro hok
    have ht : exec t = Except.ok () := hok t (by simp)
    have hrest : ∀ u ∈ rest, exec u = Except.ok () := fun u hu => hok u (by simp [hu])
    simp only [List.cons_append, execSeq, ht, List.append_eq, ih hrest]

/-- C6: if the executor fails on some DDL statement, `GenerateSchema`
executes exactly the statements up to and including the failing one (no
later statement is issued, nothing already executed is rolled back) and
returns the executor's error unmodified. -/
theorem C6_abort_on_first_failure {ε : Type} (exec : String → Except ε Unit)
    (m : StateQL) (pre post : List String) (s : String) (e : ε)
    (hsplit : allStatements m = pre ++ s :: post)
    (hok : ∀ t ∈ pre, exec t = Except.ok ())
    (hfail : exec s = Except.error e) :
    GenerateSchema exec m = (pre ++ [s], Except.error e) := by
  rw [GenerateSchema_eq_execSeq, hsplit, execSeq_fail_after exec s e post hfail pre hok]

/-- C6 witness: a single-entity model whose only statement is rejected
with error `boom`; the trace is that one statement and the error is
returned as-is. -/
theorem C6_abort_on_first_failure_witness :
    GenerateSchema
      (fun t => if t = "CREATE TABLE IF NOT EXISTS a (id SERIAL PRIMARY KEY)"
        then Except.error "boom" else Except.ok ())
      ⟨[{ Name := "A" }]⟩ =
    (["CREATE TABLE IF NOT EXISTS a (id SERIAL PRIMARY KEY)"],
      Except.error "boom") :=
  C6_abort_on_first_failure
    (fun t => if t = "CREATE TABLE IF NOT EXISTS a (id SERIAL PRIMARY KEY)"
      then Except.error "boom" else Except.ok ())
    ⟨[{ Name := "A" }]⟩ [] [] "CREATE TABLE IF NOT EXISTS a (id SERIAL PRIMARY KEY)"
    "boom" (by decide) (by intro t ht; exact absurd ht (List.not_mem_nil t))
    (by simp)

/-! ### Claim C2 -/

theorem appendFieldLast_cons2 (x : Entity) (l : List Entity) (f : Field)
    (h : l ≠ []) : appendFieldLast (x :: l) f = x :: appendFieldLast l f := by
  cases l with
  | nil => exact absurd rfl h
  | cons y rest => rfl

theorem appendFieldLast_concat (es : List Entity) (e : Entity) (f : Field) :
    appendFieldLast (es ++ [e]) f = es ++ [{ e with Fields := e.Fields ++ [f] }] := by
  induction es with
  | nil => rfl
  | cons x rest ih =>
    rw [List.cons_append, appendFieldLast_cons2 x (rest ++ [e]) f (by simp), ih,
      List.cons_append]

theorem appendFieldLast_length (es : List Entity) (f : Field) :
    (appendFieldLast es f).length = es.length := by
  induction es with
  | nil => rfl
  | cons x rest ih =>
    cases rest with
    | nil => rfl
    | cons y r2 =>
      rw [appendFieldLast_cons2 x (y :: r2) f (by simp)]
      simp [ih]

theorem appendFieldLast_get (es : List Entity) (f : Field) : ∀ k : Nat,
    k + 2 ≤ es.length → (appendFieldLast es f)[k]? = es[k]? := by
  induction es with
  | nil => intro k h; simp at h
  | cons x rest ih =>
    intro k h
    have hrest : rest ≠ [] := by
      intro hr
      rw [hr] at h
      simp at h
    rw [appendFieldLast_cons2 x rest f hrest]
    cases k with
    | zero => simp
    | succ k2 =>
      simp only [List.getElem?_cons_succ]
      refine ih k2 ?_
      simp only [List.length_cons] at h
      omega

theorem stepLine_field (es : List Entity) (raw : String) (hne : es ≠ [])
    (hf : goHasPre (goTrimSpace raw) "-" = true) :
    stepLine es raw = (parseField (goTrimSpace raw)).map (fun f => appendFieldLast es f) := by
  have hnb : goTrimSpace raw ≠ "" := by
    intro h0
    rw [h0] at hf
    exact absurd hf (by decide)
  cases es with
  | nil => exact absurd rfl hne
  | cons e rest => simp [stepLine, hnb, hf]

theorem runLines_cons_some (l : String) (ls : List String) (es mid : List Entity)
    (h : stepLine es l = some mid) : runLines es (l :: ls) = runLines mid ls := by
  simp [runLines, h]

theorem runLines_cons_none (l : String) (ls : List String) (es : List Entity)
    (h : stepLine es l = none) : runLines es (l :: ls) = none := by
  simp [runLines, h]

theorem runLines_append_some (l1 : List String) : ∀ (l2 : List String)
    (es mid : List Entity), runLines es l1 = some mid →
    runLines es (l1 ++ l2) = runLines mid l2 := by
  induction l1 with
  | nil =>
    intro l2 es mid h
    simp only [runLines] at h
    cases h
    rfl
  | cons l ls ih =>
    intro l2 es mid h
    simp only [runLines] at h
    cases hs : stepLine es l with
    | none => rw [hs] at h; exact absurd h (by simp)
    | some es2 =>
      rw [hs] at h
      rw [List.cons_append, runLines_cons_some l (ls ++ l2) es es2 hs]
      exact ih l2 es2 mid h

theorem runLines_append_none (l1 : List String) : ∀ (l2 : List String)
    (es : List Entity), runLines es l1 = none →
    runLines es (l1 ++ l2) = none := by
  induction l1 with
  | nil => intro l2 es h; exact absurd h (by simp [runLines])
  | cons l ls ih =>
    intro l2 es h
    simp only [runLines] at h
    cases hs : stepLine es l with
    | none =>
      simp only [List.cons_append, runLines, hs]
    | some es2 =>
      rw [hs] at h
      rw [List.cons_append, runLines_cons_some l (ls ++ l2) es es2 hs]
      exact ih l2 es2 h

theorem runLines_fields (fs : List String) : ∀ (es : List Entity) (n : String)
    (acc : List Field), (∀ f ∈ fs, goHasPre (goTrimSpace f) "-" = true) →
    runLines (es ++ [{ Name := n, Fields := acc }]) fs =
      (parseFieldsOpt fs).map (fun fl => es ++ [{ Name := n, Fields := acc ++ fl }]) := by
  induction fs with
  | nil =>
    intro es n acc _
    simp [runLines, parseFieldsOpt]
  | cons f fs ih =>
    intro es n acc hall
    have hf := hall f (by simp)
    have hrest : ∀ g ∈ fs, goHasPre (goTrimSpace g) "-" = true :=
      fun g hg => hall g (by simp [hg])
    have hstep := stepLine_field (es ++ [{ Name := n, Fields := acc }]) f (by simp) hf
    simp only [parseFieldsOpt]
    cases hp : parseField (goTrimSpace f) with
    | none =>
      rw [hp] at hstep
      simp only [Option.map_none'] at hstep
      rw [runLines_cons_none f fs _ hstep]
      rfl
    | some fd =>
      rw [hp] at hstep
      simp only [Option.map_some'] at hstep
      rw [appendFieldLast_concat] at hstep
      rw [runLines_cons_some f fs _ _ hstep]
      rw [ih es n (acc ++ [fd]) hrest]
      cases hq : parseFieldsOpt fs with
      | none => rfl
      | some fl => simp

theorem parseFieldsOpt_length (fs : List String) : ∀ fl : List Field,
    parseFieldsOpt fs = some fl → fl.length = fs.length := by
  induction fs with
  | nil =>
    intro fl h
    simp only [parseFieldsOpt] at h
    cases h
    rfl
  | cons f fs ih =>
    intro fl h
    simp only [parseFieldsOpt] at h
    cases hp : parseField (goTrimSpace f) with
    | none => rw [hp] at h; exact absurd h (by simp)
    | some fd =>
      rw [hp] at h
      cases hq : parseFieldsOpt fs with
      | none => rw [hq] at h; exact absurd h (by simp)
      | some fl2 =>
        rw [hq] at h
        simp only [Option.map_some'] at h
        cases h
        simp [ih fl2 hq]

/-- One scan step never disturbs entities other than the last one and
never shortens the entity list. -/
theorem stepLine_preserve (raw : String) (es es2 : List Entity) (k : Nat)
    (h : stepLine es raw = some es2) (hk : k + 2 ≤ es.length) :
    es2[k]? = es[k]? ∧ k + 2 ≤ es2.length := by
  by_cases hb : goTrimSpace raw = ""
  · simp only [stepLine, hb, if_true] at h
    cases h
    exact ⟨rfl, hk⟩
  · by_cases hh : goHasPre (goTrimSpace raw) "-" = false
    · simp only [stepLine, hb, hh, if_false, if_true] at h
      have h2 : es ++ [{ Name := goTrimSuf (goTrimSpace raw) ":" }] = es2 := by
        cases h
        rfl
      constructor
      · rw [← h2]
        exact List.getElem?_append_left (by omega)
      · rw [← h2]
        simp only [List.length_append, List.length_cons, List.length_nil]
        omega
    · simp only [Bool.not_eq_false] at hh
      cases es with
      | nil => simp at hk
      | cons e rest =>
        rw [stepLine_field (e :: rest) raw (by simp) hh] at h
        cases hp : parseField (goTrimSpace raw) with
        | none => rw [hp] at h; exact absurd h (by simp)
        | some fd =>
          rw [hp] at h
          simp only [Option.map_some'] at h
          cases h
          refine ⟨appendFieldLast_get (e :: rest) fd k hk, ?_⟩
          rw [appendFieldLast_length]
          exact hk

theorem runLines_preserve (ls : List String) : ∀ (es es2 : List Entity) (k : Nat),
    runLines es ls = some es2 → k + 2 ≤ es.length →
    es2[k]? = es[k]? ∧ k + 2 ≤ es2.length := by
  induction ls with
  | nil =>
    intro es es2 k h hk
    simp only [runLines] at h
    cases h
    exact ⟨rfl, hk⟩
  | cons l ls ih =>
    intro es es2 k h hk
    simp only [runLines] at h
    cases hs : stepLine es l with
    | none => rw [hs] at h; exact absurd h (by simp)
    | some mid =>
      rw [hs] at h
      obtain ⟨h1, h2⟩ := stepLine_preserve l es mid k hs hk
      obtain ⟨h3, h4⟩ := ih mid es2 k h h2
      exact ⟨h3.trans h1, h4⟩

theorem ParseStateQL_inv (content : String) (m : StateQL) (errc : Option String)
    (h : ParseStateQL content = some (m, errc)) :
    runLines [] (splitLines content) = some m.Entities := by
  unfold ParseStateQL at h
  cases hr : runLines [] (splitLines content) with
  | none => rw [hr] at h; exact absurd h (by simp)
  | some es =>
    rw [hr] at h
    simp only [Option.map_some'] at h
    cases h
    rfl

/-- C2: in any well-formed source, an entity header line followed by N
field lines (with the block closed by end of input or another header)
yields, at the corresponding position of the parsed model, an Entity
named by the header (trailing `:` stripped) whose field list is exactly
the N parsed field lines in source order. -/
theorem C2_entity_block (content : String) (pre fs rest : List String) (hdr : String)
    (m : StateQL) (errc : Option String) (es : List Entity)
    (hsplit : splitLines content = pre ++ hdr :: (fs ++ rest))
    (hh1 : goTrimSpace hdr ≠ "")
    (hh2 : goHasPre (goTrimSpace hdr) "-" = false)
    (hfs : ∀ f ∈ fs, goHasPre (goTrimSpace f) "-" = true)
    (hrest : rest = [] ∨ ∃ r rs, rest = r :: rs ∧ goTrimSpace r ≠ "" ∧
      goHasPre (goTrimSpace r) "-" = false)
    (hpre : runLines [] pre = some es)
    (hparse : ParseStateQL content = some (m, errc)) :
    ∃ fl, parseFieldsOpt fs = some fl ∧ fl.length = fs.length ∧
      m.Entities[es.length]? = some { Name := headerName hdr, Fields := fl } := by
  have hall := ParseStateQL_inv content m errc hparse
  rw [hsplit, runLines_append_some pre (hdr :: (fs ++ rest)) [] es hpre] at hall
  rw [runLines_cons_some hdr (fs ++ rest) es _ (stepLine_header es hdr hh1 hh2)] at hall
  cases hmid : runLines (es ++ [{ Name := headerName hdr }]) fs with
  | none =>
    rw [runLines_append_none fs rest _ hmid] at hall
    exact absurd hall (by simp)
  | some mid =>
    rw [runLines_append_some fs rest _ mid hmid] at hall
    rw [runLines_fields fs es (headerName hdr) [] hfs] at hmid
    cases hq : parseFieldsOpt fs with
    | none => rw [hq] at hmid; exact absurd hmid (by simp)
    | some fl =>
      rw [hq] at hmid
      simp only [Option.map_some', List.nil_append] at hmid
      have hmid2 : mid = es ++ [{ Name := headerName hdr, Fields := fl }] := by
        cases hmid
        rfl
      have hidx : mid[es.length]? = some { Name := headerName hdr, Fields := fl } := by
        rw [hmid2]
        exact List.getElem?_concat_length es _
      refine ⟨fl, rfl, parseFieldsOpt_length fs fl hq, ?_⟩
      rcases hrest with hre | ⟨r, rs, hre, hr1, hr2⟩
      · rw [hre] at hall
        simp only [runLines] at hall
        cases hall
        exact hidx
      · rw [hre] at hall
        rw [runLines_cons_some r rs mid _ (stepLine_header mid r hr1 hr2)] at hall
        have hlen : es.length + 2 ≤ (mid ++ [({ Name := headerName r } : Entity)]).length := by
          rw [hmid2]
          simp
        obtain ⟨hpres, _⟩ := runLines_preserve rs _ m.Entities es.length hall hlen
        rw [hpres, List.getElem?_append_left (by rw [hmid2]; simp)]
        exact hidx

/-- C2 witness: the source `"A:\n- x is text\nB:"` — header `A:`, one
field line, then another header — yields entity 0 named `A` with exactly
the one parsed field. -/
theorem C2_entity_block_witness :
    ∃ fl, parseFieldsOpt ["- x is text"] = some fl ∧
      fl.length = (["- x is text"] : List String).length ∧
      (StateQL.mk [({ Name := "A", Fields := [{ Name := "x", Type' := "text" }] } : Entity),
        ({ Name := "B" } : Entity)]).Entities[(0 : Nat)]? =
        some { Name := headerName "A:", Fields := fl } :=
  C2_entity_block "A:\n- x is text\nB:" [] ["- x is text"] ["B:"] "A:"
    ⟨[{ Name := "A", Fields := [{ Name := "x", Type' := "text" }] }, { Name := "B" }]⟩
    none []
    (by decide) (by decide) (by decide) (by decide)
    (Or.inr ⟨"B:", [], rfl, by decide, by decide⟩)
    (by decide) (by decide)

end StateQLVerif
